import Mathlib

/-!
# Verification of the adaptive-ROI / detection-stabilization core

Shallow embedding of the repository's core computation:

* `ROIBox` geometry (`expand`, `smooth_with`, `make_square_multiple`) from
  `adeline/inference/roi/adaptive/geometry.py`;
* `ROIState.update_from_detections` from `adeline/inference/roi/adaptive/state.py`;
* `transform_predictions_vectorized` from `adeline/inference/roi/adaptive/pipeline.py`;
* `calculate_iou` from `adeline/inference/stabilization/matching.py`;
* `TemporalHysteresisStabilizer.process` and `create_stabilization_strategy` from
  `quickstart/inference/adeline/detection_stabilization.py`.

Modelling conventions: Python ints are `ℤ` (or `ℕ` for counters that start at 0
and only ever increment or reset), Python floats are exact rationals `ℚ`,
Python dicts keyed by class name are association lists preserving insertion
order, and Python's `//` is `Int.fdiv`.  Wall-clock fields (`last_seen_time`),
logging and the `_stats` counters are dropped: no verified property reads them.
-/

/-- Python `int(q)` applied to a float: truncation toward zero. -/
def pyTrunc (q : ℚ) : ℤ := if q < 0 then -(Int.floor (-q)) else Int.floor q

/-- Python `round(q)` on a float: round half to even. -/
def pyRound (q : ℚ) : ℤ :=
  let f := Int.floor q
  if q - f < 1/2 then f
  else if q - f > 1/2 then f + 1
  else if 2 ∣ f then f else f + 1

/-- Source `ROIBox` from `geometry.py`: an axis-aligned box with integer corners. -/
structure ROIBox where
  x1 : ℤ
  y1 : ℤ
  x2 : ℤ
  y2 : ℤ
deriving DecidableEq, Repr

/-- Source `ROIBox.width` property. -/
def ROIBox.width (b : ROIBox) : ℤ := b.x2 - b.x1

/-- Source `ROIBox.height` property. -/
def ROIBox.height (b : ROIBox) : ℤ := b.y2 - b.y1

/-- Source `ROIBox.area` property. -/
def ROIBox.area (b : ROIBox) : ℤ := b.width * b.height

/-- Source `ROIBox.is_square` property (`width == height`). -/
def ROIBox.is_square (b : ROIBox) : Prop := b.width = b.height

instance (b : ROIBox) : Decidable b.is_square :=
  inferInstanceAs (Decidable (b.width = b.height))

/-- Source `ROIBox.expand(margin, frame_shape, preserve_square)` from `geometry.py`:
grow the box by `int(margin*w)` / `int(margin*h)` pixels per side (using the
larger of the two when `preserve_square` and the box is square), then clip to
`[0,w] × [0,h]`.  `frame_shape` is `(height, width)` as in the source. -/
def ROIBox.expand (b : ROIBox) (margin : ℚ) (frame_shape : ℤ × ℤ)
    (preserve_square : Bool) : ROIBox :=
  let h := frame_shape.1
  let w := frame_shape.2
  let margin_x := pyTrunc (margin * w)
  let margin_y := pyTrunc (margin * h)
  let margin_x' := if preserve_square ∧ b.is_square then max margin_x margin_y else margin_x
  let margin_y' := if preserve_square ∧ b.is_square then max margin_x margin_y else margin_y
  ⟨max 0 (b.x1 - margin_x'), max 0 (b.y1 - margin_y'),
   min w (b.x2 + margin_x'), min h (b.y2 + margin_y')⟩

/-- Source `ROIBox.smooth_with(other, alpha)` from `geometry.py`: per-corner linear
interpolation `int(alpha*other + (1-alpha)*self)`; if both inputs are square
and rounding broke squareness, re-center and force the larger side. -/
def ROIBox.smooth_with (b other : ROIBox) (alpha : ℚ) : ROIBox :=
  let s : ROIBox :=
    ⟨pyTrunc (alpha * other.x1 + (1 - alpha) * b.x1),
     pyTrunc (alpha * other.y1 + (1 - alpha) * b.y1),
     pyTrunc (alpha * other.x2 + (1 - alpha) * b.x2),
     pyTrunc (alpha * other.y2 + (1 - alpha) * b.y2)⟩
  if b.is_square ∧ other.is_square ∧ ¬ s.is_square then
    let size := max s.width s.height
    let center_x := (s.x1 + s.x2).fdiv 2
    let center_y := (s.y1 + s.y2).fdiv 2
    let half_size := size.fdiv 2
    ⟨center_x - half_size, center_y - half_size,
     center_x - half_size + size, center_y - half_size + size⟩
  else s

/-- The clamped size multiple chosen by `make_square_multiple`:
`max(min_multiple, min(max_multiple, round(max_side / imgsz)))`. -/
def ROIBox.squareMultiple (b : ROIBox) (imgsz min_multiple max_multiple : ℤ) : ℤ :=
  max min_multiple (min max_multiple (pyRound ((max b.width b.height : ℚ) / (imgsz : ℚ))))

/-- Source `ROIBox.make_square_multiple(imgsz, min_multiple, max_multiple, frame_shape)`
from `geometry.py`: round the larger side to a clamped multiple of `imgsz`,
center the resulting square on the box center, then clip to frame bounds. -/
def ROIBox.make_square_multiple (b : ROIBox) (imgsz min_multiple max_multiple : ℤ)
    (frame_shape : ℤ × ℤ) : ROIBox :=
  let square_size := b.squareMultiple imgsz min_multiple max_multiple * imgsz
  let center_x := (b.x1 + b.x2).fdiv 2
  let center_y := (b.y1 + b.y2).fdiv 2
  let half_size := square_size.fdiv 2
  let nx1 := center_x - half_size
  let ny1 := center_y - half_size
  let nx2 := nx1 + square_size
  let ny2 := ny1 + square_size
  let h := frame_shape.1
  let w := frame_shape.2
  ⟨max 0 nx1, max 0 ny1, min w nx2, min h ny2⟩

/-- A center+size bounding box as passed to `calculate_iou` in `matching.py`
(`{'x', 'y', 'width', 'height'}`, floats modelled as `ℚ`). -/
structure Bbox where
  x : ℚ
  y : ℚ
  width : ℚ
  height : ℚ
deriving DecidableEq, Repr

/-- Source `calculate_iou(bbox1, bbox2)` from `matching.py`: convert both boxes to
corner form, intersect, return 0 on no overlap or non-positive union, else
intersection area over union area. -/
def calculate_iou (bbox1 bbox2 : Bbox) : ℚ :=
  let x1_min := bbox1.x - bbox1.width / 2
  let y1_min := bbox1.y - bbox1.height / 2
  let x1_max := bbox1.x + bbox1.width / 2
  let y1_max := bbox1.y + bbox1.height / 2
  let x2_min := bbox2.x - bbox2.width / 2
  let y2_min := bbox2.y - bbox2.height / 2
  let x2_max := bbox2.x + bbox2.width / 2
  let y2_max := bbox2.y + bbox2.height / 2
  let inter_x_min := max x1_min x2_min
  let inter_y_min := max y1_min y2_min
  let inter_x_max := min x1_max x2_max
  let inter_y_max := min y1_max y2_max
  if inter_x_max < inter_x_min ∨ inter_y_max < inter_y_min then 0
  else
    let inter_area := (inter_x_max - inter_x_min) * (inter_y_max - inter_y_min)
    let area1 := bbox1.width * bbox1.height
    let area2 := bbox2.width * bbox2.height
    let union_area := area1 + area2 - inter_area
    if union_area ≤ 0 then 0 else inter_area / union_area

/-- The boxes `a` and `b` have intersection of zero (or negative) extent along
some axis: the "disjoint" side condition of C6. -/
def Bbox.disjoint (a b : Bbox) : Prop :=
  min (a.x + a.width / 2) (b.x + b.width / 2) ≤ max (a.x - a.width / 2) (b.x - b.width / 2) ∨
  min (a.y + a.height / 2) (b.y + b.height / 2) ≤ max (a.y - a.height / 2) (b.y - b.height / 2)

/-- A detection record (`{'class', 'confidence', 'x', 'y', 'width', 'height'}`)
as used by the stabilizer and the prediction transform.  The Python key
`'class'` is the field `cls` (`class` is reserved in Lean). -/
structure Detection where
  cls : String
  confidence : ℚ
  x : ℚ
  y : ℚ
  width : ℚ
  height : ℚ
deriving DecidableEq, Repr

/-- The model-predictions record seen by `transform_predictions_vectorized`:
`none` models a dict without the `'predictions'` key. -/
structure Predictions where
  predictions : Option (List Detection)
deriving DecidableEq, Repr

/-- Source `transform_predictions_vectorized(predictions, crop_offset)` from
`pipeline.py`: with no offset, or no `'predictions'` key, or an empty list,
the record is returned unchanged; otherwise each detection's center is shifted
by the crop offset. -/
def transform_predictions_vectorized (p : Predictions)
    (crop_offset : Option (ℤ × ℤ)) : Predictions :=
  match crop_offset, p.predictions with
  | none, _ => p
  | some _, none => p
  | some (ox, oy), some dets =>
    if dets.isEmpty then p
    else ⟨some (dets.map fun d => { d with x := d.x + (ox : ℚ), y := d.y + (oy : ℚ) })⟩

/-- The detection list carried by a predictions record (empty when the
`'predictions'` key is absent). -/
def Predictions.dets (p : Predictions) : List Detection := p.predictions.getD []

/-- Configuration parameters of `ROIState.__init__` in `state.py` that the
update path reads. -/
structure ROIParams where
  margin : ℚ
  smoothing_alpha : ℚ
  min_roi_size : ℚ
  imgsz : ℤ
  min_roi_multiple : ℤ
  max_roi_multiple : ℤ

/-- Source `ROIState._roi_by_source`: per-source stored box (`none` = full frame). -/
def ROIStateMap : Type := ℤ → Option ROIBox

/-- Source `ROIState.get_roi(source_id)` from `state.py`. -/
def ROIState.get_roi (st : ROIStateMap) (source_id : ℤ) : Option ROIBox := st source_id

/-- The element-wise min/max enclosing box of a nonempty list of detections in
`xyxy` corner form, truncated to int as in `state.py`
(`int(np.min(xyxy[:,0]))`, ...). -/
def enclosingBox (d : ℚ × ℚ × ℚ × ℚ) (ds : List (ℚ × ℚ × ℚ × ℚ)) : ROIBox :=
  ⟨pyTrunc (ds.foldl (fun m e => min m e.1) d.1),
   pyTrunc (ds.foldl (fun m e => min m e.2.1) d.2.1),
   pyTrunc (ds.foldl (fun m e => max m e.2.2.1) d.2.2.1),
   pyTrunc (ds.foldl (fun m e => max m e.2.2.2) d.2.2.2)⟩

/-- Source `ROIState.update_from_detections(source_id, detections, frame_shape)` from
`state.py`: empty detections store `none`; otherwise the enclosing box is
squared to a multiple of `imgsz`, expanded preserving squareness, discarded as
`none` when its area is below `min_roi_size` of the frame area, and otherwise
smoothed against the previous box (when present) and stored. -/
def ROIState.update_from_detections (p : ROIParams) (st : ROIStateMap)
    (source_id : ℤ) (dets : List (ℚ × ℚ × ℚ × ℚ)) (frame_shape : ℤ × ℤ) : ROIStateMap :=
  match dets with
  | [] => fun sid => if sid = source_id then none else st sid
  | d :: ds =>
    let roi1 := (enclosingBox d ds).make_square_multiple
      p.imgsz p.min_roi_multiple p.max_roi_multiple frame_shape
    let roi2 := roi1.expand p.margin frame_shape true
    let h := frame_shape.1
    let w := frame_shape.2
    if ((roi2.width * roi2.height : ℤ) : ℚ) < p.min_roi_size * ((h * w : ℤ) : ℚ) then
      fun sid => if sid = source_id then none else st sid
    else
      let result := match st source_id with
        | none => roi2
        | some prev => roi2.smooth_with prev p.smoothing_alpha
      fun sid => if sid = source_id then some result else st sid

/-- The stored value claim C5 describes, written from the claim's words:
`none` on empty input; else the enclosing min/max box run through
`make_square_multiple` and square-preserving `expand`; `none` when the area is
below the configured fraction of the frame; else that box, smoothed with the
previous stored box when one exists. -/
def roiUpdateSpec (p : ROIParams) (prev : Option ROIBox)
    (dets : List (ℚ × ℚ × ℚ × ℚ)) (frame_shape : ℤ × ℤ) : Option ROIBox :=
  match dets with
  | [] => none
  | d :: ds =>
    let box := ((enclosingBox d ds).make_square_multiple
      p.imgsz p.min_roi_multiple p.max_roi_multiple frame_shape).expand
      p.margin frame_shape true
    if ((box.width * box.height : ℤ) : ℚ)
        < p.min_roi_size * ((frame_shape.1 * frame_shape.2 : ℤ) : ℚ) then none
    else some (match prev with
      | none => box
      | some q => box.smooth_with q p.smoothing_alpha)

/-- Source `StabilizationConfig` from `detection_stabilization.py` (the fields read by
the factory). -/
structure StabilizationConfig where
  mode : String
  temporal_min_frames : ℤ
  temporal_max_gap : ℤ
  hysteresis_appear_conf : ℚ
  hysteresis_persist_conf : ℚ

/-- The two stabilizers the factory can build. -/
inductive StabilizerKind where
  | noop : StabilizerKind
  | temporal (min_frames max_gap : ℤ) (appear_conf persist_conf : ℚ) : StabilizerKind
deriving DecidableEq

/-- Source `create_stabilization_strategy(config)` from `detection_stabilization.py`:
`Except.error` models a raised `ValueError`. -/
def create_stabilization_strategy (config : StabilizationConfig) :
    Except String StabilizerKind :=
  let mode := config.mode.toLower
  if ¬ (mode = "none" ∨ mode = "temporal") then
    .error "Invalid stabilization mode"
  else if mode = "none" then
    .ok .noop
  else if mode = "temporal" then
    if config.temporal_min_frames < 1 then
      .error "temporal_min_frames must be >= 1"
    else if config.temporal_max_gap < 0 then
      .error "temporal_max_gap must be >= 0"
    else if ¬ (0 ≤ config.hysteresis_appear_conf ∧ config.hysteresis_appear_conf ≤ 1) then
      .error "hysteresis_appear_conf must be in [0.0, 1.0]"
    else if ¬ (0 ≤ config.hysteresis_persist_conf ∧ config.hysteresis_persist_conf ≤ 1) then
      .error "hysteresis_persist_conf must be in [0.0, 1.0]"
    else if config.hysteresis_persist_conf > config.hysteresis_appear_conf then
      .error "hysteresis_persist_conf must be <= appear_conf"
    else
      .ok (.temporal config.temporal_min_frames config.temporal_max_gap
        config.hysteresis_appear_conf config.hysteresis_persist_conf)
  else
    .error "Unhandled stabilization mode"

/-- Source `DetectionTrack` from `detection_stabilization.py`.  `confidences` is the
`deque(maxlen=10)` history; the wall-clock `last_seen_time` is omitted. -/
structure DetectionTrack where
  class_name : String
  confidence : ℚ
  x : ℚ
  y : ℚ
  width : ℚ
  height : ℚ
  consecutive_frames : ℕ
  gap_frames : ℕ
  confirmed : Bool
  confidences : List ℚ
deriving DecidableEq, Repr

/-- Source `deque(maxlen=10).append(c)`: push right, dropping from the left past 10. -/
def pushConfidence (xs : List ℚ) (c : ℚ) : List ℚ :=
  let ys := xs ++ [c]
  ys.drop (ys.length - 10)

/-- Source `DetectionTrack.update(confidence, x, y, width, height)`. -/
def DetectionTrack.update (t : DetectionTrack) (d : Detection) : DetectionTrack :=
  { t with
    confidence := d.confidence
    x := d.x
    y := d.y
    width := d.width
    height := d.height
    consecutive_frames := t.consecutive_frames + 1
    gap_frames := 0
    confidences := pushConfidence t.confidences d.confidence }

/-- Source `DetectionTrack.mark_missed()`. -/
def DetectionTrack.mark_missed (t : DetectionTrack) : DetectionTrack :=
  { t with consecutive_frames := 0, gap_frames := t.gap_frames + 1 }

/-- The `DetectionTrack(...)` constructed for an unmatched qualifying
detection in `process` (`consecutive_frames=1`, then
`confidences.append(confidence)`). -/
def DetectionTrack.create (d : Detection) : DetectionTrack :=
  { class_name := d.cls
    confidence := d.confidence
    x := d.x
    y := d.y
    width := d.width
    height := d.height
    consecutive_frames := 1
    gap_frames := 0
    confirmed := false
    confidences := [d.confidence] }

/-- The track's position fields, for statements about which track sits where. -/
def DetectionTrack.posQuad (t : DetectionTrack) : ℚ × ℚ × ℚ × ℚ :=
  (t.x, t.y, t.width, t.height)

/-- A detection's position fields. -/
def Detection.posQuad (d : Detection) : ℚ × ℚ × ℚ × ℚ :=
  (d.x, d.y, d.width, d.height)

/-- The per-source track dict `class_name → list of DetectionTrack`, as an
insertion-ordered association list (Python dicts preserve insertion order). -/
abbrev TrackTable := List (String × List DetectionTrack)

/-- Source `class_name in tracks` / `tracks[class_name]` lookup. -/
def getRow : TrackTable → String → Option (List DetectionTrack)
  | [], _ => none
  | (c, ts) :: rest, cls => if c = cls then some ts else getRow rest cls

/-- Replace the row of an existing class key. -/
def setRow : TrackTable → String → List DetectionTrack → TrackTable
  | [], _, _ => []
  | (c, ts) :: rest, cls, ts' =>
    if c = cls then (c, ts') :: rest else (c, ts) :: setRow rest cls ts'

/-- Source `tracks[class_name].append(t)` on a `defaultdict(list)`: append to the
existing row, or create a new row at the end of the dict. -/
def appendTrack : TrackTable → String → DetectionTrack → TrackTable
  | [], cls, t => [(cls, [t])]
  | (c, ts) :: rest, cls, t =>
    if c = cls then (c, ts ++ [t]) :: rest else (c, ts) :: appendTrack rest cls t

/-- The scan `for idx, track in enumerate(tracks[cls]): if (cls, idx) not in
matched_tracks: ...` — the first index `≥ i` (among `n` remaining) whose pair
is not yet matched. -/
def firstUnmatched (matched : List (String × ℕ)) (cls : String) : ℕ → ℕ → Option ℕ
  | _, 0 => none
  | i, n + 1 => if (cls, i) ∈ matched then firstUnmatched matched cls (i + 1) n else some i

/-- Source `TemporalHysteresisStabilizer` (its constructor parameters). -/
structure TemporalHysteresisStabilizer where
  min_frames : ℤ
  max_gap : ℤ
  appear_conf : ℚ
  persist_conf : ℚ

/-- The matched-track branch of `process` step 1: pick the hysteresis
threshold (`persist_conf` once confirmed, else `appear_conf`); update on
sufficient confidence — setting `confirmed` the first time
`consecutive_frames >= min_frames` — else mark the track missed. -/
def hysteresisStep (p : TemporalHysteresisStabilizer) (d : Detection)
    (t : DetectionTrack) : DetectionTrack :=
  let threshold := if t.confirmed then p.persist_conf else p.appear_conf
  if threshold ≤ d.confidence then
    let t' := t.update d
    if t'.confirmed = false ∧ p.min_frames ≤ (t'.consecutive_frames : ℤ) then
      { t' with confirmed := true }
    else t'
  else t.mark_missed

/-- Apply `f` to the track at index `i` of a row. -/
def modifyTrack (f : DetectionTrack → DetectionTrack) : ℕ → List DetectionTrack → List DetectionTrack
  | _, [] => []
  | 0, t :: ts => f t :: ts
  | n + 1, t :: ts => t :: modifyTrack f n ts

/-- One iteration of `process` step 1/2 for a single incoming detection:
match the first not-yet-matched same-class track (recording it in
`matched_tracks` and running the hysteresis update), or create a new track
when the confidence reaches `appear_conf`, or drop the detection. -/
def processDetection (p : TemporalHysteresisStabilizer)
    (acc : TrackTable × List (String × ℕ)) (d : Detection) :
    TrackTable × List (String × ℕ) :=
  match getRow acc.1 d.cls with
  | some ts =>
    match firstUnmatched acc.2 d.cls 0 ts.length with
    | some i =>
      (setRow acc.1 d.cls (modifyTrack (hysteresisStep p d) i ts), (d.cls, i) :: acc.2)
    | none =>
      if p.appear_conf ≤ d.confidence then
        (appendTrack acc.1 d.cls (DetectionTrack.create d), acc.2)
      else acc
  | none =>
    if p.appear_conf ≤ d.confidence then
      (appendTrack acc.1 d.cls (DetectionTrack.create d), acc.2)
    else acc

/-- Source `process` step 3 on one row: `mark_missed()` every index not in
`matched_tracks` (`i` is the index of the row head). -/
def markRow (matched : List (String × ℕ)) (cls : String) :
    ℕ → List DetectionTrack → List DetectionTrack
  | _, [] => []
  | i, t :: ts =>
    (if (cls, i) ∈ matched then t else t.mark_missed) :: markRow matched cls (i + 1) ts

/-- Source `process` step 3: mark all unmatched tracks missed. -/
def markUnmatched (matched : List (String × ℕ)) : TrackTable → TrackTable
  | [] => []
  | (c, ts) :: rest => (c, markRow matched c 0 ts) :: markUnmatched matched rest

/-- The stabilized detection emitted for a confirmed, currently-seen track
(the `_stabilization` debug metadata is not modelled). -/
def emitTrack (t : DetectionTrack) : Detection :=
  { cls := t.class_name
    confidence := t.confidence
    x := t.x
    y := t.y
    width := t.width
    height := t.height }

/-- Source `process` step 4 on one row: emit tracks with `confirmed and gap_frames == 0`. -/
def emitRow (ts : List DetectionTrack) : List Detection :=
  ts.filterMap fun t =>
    if t.confirmed = true ∧ t.gap_frames = 0 then some (emitTrack t) else none

/-- Source `process` step 4 over the whole table, in dict order. -/
def emitAll : TrackTable → List Detection
  | [] => []
  | (_, ts) :: rest => emitRow ts ++ emitAll rest

/-- Source `process` step 5 on one row: keep tracks with `gap_frames <= max_gap`. -/
def evictRow (max_gap : ℤ) (ts : List DetectionTrack) : List DetectionTrack :=
  ts.filter fun t => decide ((t.gap_frames : ℤ) ≤ max_gap)

/-- Source `process` step 5: filter every row, dropping emptied class keys. -/
def evictExpired (max_gap : ℤ) : TrackTable → TrackTable
  | [] => []
  | (c, ts) :: rest =>
    let kept := evictRow max_gap ts
    if kept.isEmpty then evictExpired max_gap rest
    else (c, kept) :: evictExpired max_gap rest

/-- Source `process` steps 1–3 (the table after matching, creation and
missed-marking, before emission and eviction). -/
def TemporalHysteresisStabilizer.afterMark (p : TemporalHysteresisStabilizer)
    (detections : List Detection) (tracks : TrackTable) : TrackTable :=
  let s := detections.foldl (processDetection p) (tracks, [])
  markUnmatched s.2 s.1

/-- Source `TemporalHysteresisStabilizer.process(detections, source_id)` for one
source: returns the emitted stabilized detections and the new track table. -/
def TemporalHysteresisStabilizer.process (p : TemporalHysteresisStabilizer)
    (detections : List Detection) (tracks : TrackTable) :
    List Detection × TrackTable :=
  (emitAll (p.afterMark detections tracks),
   evictExpired p.max_gap (p.afterMark detections tracks))

/-- Iterate `process` over a sequence of frames, tracking only the table. -/
def processN (p : TemporalHysteresisStabilizer)
    (frames : List (List Detection)) (tracks : TrackTable) : TrackTable :=
  frames.foldl (fun st f => (p.process f st).2) tracks

/-- A track value occurs somewhere in the table. -/
def trackMem (t : DetectionTrack) (tbl : TrackTable) : Prop :=
  ∃ r, r ∈ tbl ∧ t ∈ r.2

/-- All tracks of the table, in dict-then-row order. -/
def allTracks : TrackTable → List DetectionTrack
  | [] => []
  | (_, ts) :: rest => ts ++ allTracks rest

/-- Key uniqueness: the association-list model of the Python dict. -/
def TrackTableWF (tbl : TrackTable) : Prop := (tbl.map Prod.fst).Nodup

/-- Invariant of the step-1 matching fold: any track whose pair is already in
`matched_tracks` and whose `gap_frames` is 0 was updated this call with a
confidence at or above `persist_conf`. -/
def matchInv (p : TemporalHysteresisStabilizer)
    (acc : TrackTable × List (String × ℕ)) : Prop :=
  ∀ cls ts, getRow acc.1 cls = some ts → ∀ i t, ts.get? i = some t →
    (t.gap_frames = 0 → p.persist_conf ≤ t.confidence) ∨ (cls, i) ∉ acc.2

/-- C1 counterexample: `make_square_multiple` on box `(0,0,100,100)` with
`imgsz=320`, multiples `[1,4]`, frame `(1080,1920)` returns `(0,0,210,210)`:
the clipping step shrank the centered `320×320` square, so the width `210` is
not `m*320` for any multiple `m ∈ [1,4]` — the claim's conjunction fails. -/
theorem C1_counterexample :
    (ROIBox.mk 0 0 100 100).make_square_multiple 320 1 4 (1080, 1920) = ⟨0, 0, 210, 210⟩ ∧
    ¬ ∃ m : ℤ, 1 ≤ m ∧ m ≤ 4 ∧
      ((ROIBox.mk 0 0 100 100).make_square_multiple 320 1 4 (1080, 1920)).width = m * 320 := by
  have hbox : (ROIBox.mk 0 0 100 100).make_square_multiple 320 1 4 (1080, 1920)
      = ⟨0, 0, 210, 210⟩ := by
    norm_num [ROIBox.make_square_multiple, ROIBox.squareMultiple, ROIBox.width,
      ROIBox.height, pyRound]
    decide
  refine ⟨hbox, ?_⟩
  rintro ⟨m, hm1, hm4, hw⟩
  rw [hbox] at hw
  simp only [ROIBox.width] at hw
  omega

/-- C1 (amended): `make_square_multiple` always returns a box inside
`[0,w] × [0,h]`, and whenever the centered square it builds is not clipped by
the frame, that box is square with side `multiple × imgsz` for a clamped
multiple lying in `[min_multiple, max_multiple]`. -/
theorem C1_make_square_multiple_bounds_and_square
    (b : ROIBox) (imgsz mn mx h w : ℤ) (him : 0 < imgsz) (hmn : mn ≤ mx) :
    (0 ≤ (b.make_square_multiple imgsz mn mx (h, w)).x1 ∧
     0 ≤ (b.make_square_multiple imgsz mn mx (h, w)).y1 ∧
     (b.make_square_multiple imgsz mn mx (h, w)).x2 ≤ w ∧
     (b.make_square_multiple imgsz mn mx (h, w)).y2 ≤ h) ∧
    (mn ≤ b.squareMultiple imgsz mn mx ∧ b.squareMultiple imgsz mn mx ≤ mx) ∧
    ((0 ≤ (b.x1 + b.x2).fdiv 2 - (b.squareMultiple imgsz mn mx * imgsz).fdiv 2 →
      0 ≤ (b.y1 + b.y2).fdiv 2 - (b.squareMultiple imgsz mn mx * imgsz).fdiv 2 →
      (b.x1 + b.x2).fdiv 2 - (b.squareMultiple imgsz mn mx * imgsz).fdiv 2
        + b.squareMultiple imgsz mn mx * imgsz ≤ w →
      (b.y1 + b.y2).fdiv 2 - (b.squareMultiple imgsz mn mx * imgsz).fdiv 2
        + b.squareMultiple imgsz mn mx * imgsz ≤ h →
      (b.make_square_multiple imgsz mn mx (h, w)).width
          = b.squareMultiple imgsz mn mx * imgsz ∧
      (b.make_square_multiple imgsz mn mx (h, w)).is_square)) := by
  simp only [ROIBox.make_square_multiple, ROIBox.is_square, ROIBox.width, ROIBox.height]
  constructor
  · constructor
    · exact le_max_left _ _
    constructor
    · exact le_max_left _ _
    constructor
    · exact min_le_left _ _
    · exact min_le_left _ _
  constructor
  · unfold ROIBox.squareMultiple
    generalize pyRound ((max b.width b.height : ℚ) / (imgsz : ℚ)) = p
    omega
  · intro h1 h2 h3 h4
    generalize hq : b.squareMultiple imgsz mn mx * imgsz = s at *
    generalize hc : (b.x1 + b.x2).fdiv 2 = cx at *
    generalize hd : (b.y1 + b.y2).fdiv 2 = cy at *
    generalize hh : s.fdiv 2 = hs at *
    omega

/-- C8 counterexample: the square box `(90,40,100,50)` expanded with
`margin = 0.2`, `preserve_square = true` in a `100×100` frame is clipped
asymmetrically and comes back `30×50`, not square. -/
theorem C8_counterexample :
    (ROIBox.mk 90 40 100 50).is_square ∧
    (ROIBox.mk 90 40 100 50).expand (1/5) (100, 100) true = ⟨70, 20, 100, 70⟩ ∧
    ¬ ((ROIBox.mk 90 40 100 50).expand (1/5) (100, 100) true).is_square := by
  refine ⟨by norm_num [ROIBox.is_square, ROIBox.width, ROIBox.height], ?_, ?_⟩
  · norm_num [ROIBox.expand, ROIBox.is_square, ROIBox.width, ROIBox.height, pyTrunc]
  · norm_num [ROIBox.expand, ROIBox.is_square, ROIBox.width, ROIBox.height, pyTrunc]

/-- C8 (amended): for a square input box, `expand` with `preserve_square=true`
returns a square box whenever the symmetric expansion by the common margin
`max(int(margin*w), int(margin*h))` stays inside the frame (no clipping). -/
theorem C8_expand_preserve_square
    (b : ROIBox) (margin : ℚ) (h w : ℤ) (hsq : b.is_square)
    (hx1 : 0 ≤ b.x1 - max (pyTrunc (margin * w)) (pyTrunc (margin * h)))
    (hy1 : 0 ≤ b.y1 - max (pyTrunc (margin * w)) (pyTrunc (margin * h)))
    (hx2 : b.x2 + max (pyTrunc (margin * w)) (pyTrunc (margin * h)) ≤ w)
    (hy2 : b.y2 + max (pyTrunc (margin * w)) (pyTrunc (margin * h)) ≤ h) :
    (b.expand margin (h, w) true).is_square := by
  have hsq' : b.width = b.height := hsq
  simp only [ROIBox.expand, ROIBox.is_square, ROIBox.width, ROIBox.height] at *
  rw [if_pos ⟨trivial, hsq⟩, if_pos ⟨trivial, hsq⟩]
  generalize hm : max (pyTrunc (margin * w)) (pyTrunc (margin * h)) = m at *
  omega

/-- C8 witness: a concrete instantiation of `C8_expand_preserve_square`
(box `(40,40,50,50)`, margin `0.2`, frame `100×100`). -/
theorem C8_expand_preserve_square_witness :
    ((ROIBox.mk 40 40 50 50).expand (1/5) (100, 100) true).is_square :=
  C8_expand_preserve_square (ROIBox.mk 40 40 50 50) (1/5) 100 100
    (by norm_num [ROIBox.is_square, ROIBox.width, ROIBox.height])
    (by norm_num [pyTrunc]) (by norm_num [pyTrunc])
    (by norm_num [pyTrunc]) (by norm_num [pyTrunc])

/-- C1 witness: a concrete instantiation of
`C1_make_square_multiple_bounds_and_square` (box `(400,400,500,500)`,
`imgsz=320`, multiples `[1,4]`, frame `(1080,1920)`; the centered square is
unclipped, so the result is a `320×320` square). -/
theorem C1_make_square_multiple_witness :
    ((ROIBox.mk 400 400 500 500).make_square_multiple 320 1 4 (1080, 1920)).width = 320 ∧
    ((ROIBox.mk 400 400 500 500).make_square_multiple 320 1 4 (1080, 1920)).is_square := by
  have hmul : (ROIBox.mk 400 400 500 500).squareMultiple 320 1 4 = 1 := by
    norm_num [ROIBox.squareMultiple, ROIBox.width, ROIBox.height, pyRound]
  have h := (C1_make_square_multiple_bounds_and_square (ROIBox.mk 400 400 500 500)
    320 1 4 1080 1920 (by norm_num) (by norm_num)).2.2
    (by rw [hmul]; decide) (by rw [hmul]; decide)
    (by rw [hmul]; decide) (by rw [hmul]; decide)
  rw [hmul] at h
  simpa using h

lemma calculate_iou_eq_zero_of_disjoint (a b : Bbox) (hd : a.disjoint b) :
    calculate_iou a b = 0 := by
  rcases hd with hx | hy
  · rcases lt_or_eq_of_le hx with hlt | heq
    · simp only [calculate_iou]
      rw [if_pos (Or.inl hlt)]
    · simp only [calculate_iou]
      by_cases hc : min (a.x + a.width / 2) (b.x + b.width / 2) <
          max (a.x - a.width / 2) (b.x - b.width / 2) ∨
          min (a.y + a.height / 2) (b.y + b.height / 2) <
          max (a.y - a.height / 2) (b.y - b.height / 2)
      · rw [if_pos hc]
      · rw [if_neg hc, ← heq, sub_self, zero_mul]
        by_cases hu : a.width * a.height + b.width * b.height - 0 ≤ 0
        · rw [if_pos hu]
        · rw [if_neg hu, zero_div]
  · rcases lt_or_eq_of_le hy with hlt | heq
    · simp only [calculate_iou]
      rw [if_pos (Or.inr hlt)]
    · simp only [calculate_iou]
      by_cases hc : min (a.x + a.width / 2) (b.x + b.width / 2) <
          max (a.x - a.width / 2) (b.x - b.width / 2) ∨
          min (a.y + a.height / 2) (b.y + b.height / 2) <
          max (a.y - a.height / 2) (b.y - b.height / 2)
      · rw [if_pos hc]
      · rw [if_neg hc, ← heq, sub_self, mul_zero]
        by_cases hu : a.width * a.height + b.width * b.height - 0 ≤ 0
        · rw [if_pos hu]
        · rw [if_neg hu, zero_div]

lemma calculate_iou_eq_zero_of_zero_area (a b : Bbox)
    (hz : a.width * a.height = 0 ∨ b.width * b.height = 0) :
    calculate_iou a b = 0 := by
  apply calculate_iou_eq_zero_of_disjoint
  unfold Bbox.disjoint
  rcases hz with hz | hz <;> rcases mul_eq_zero.mp hz with h0 | h0
  · left
    calc min (a.x + a.width / 2) (b.x + b.width / 2) ≤ a.x + a.width / 2 := min_le_left _ _
      _ ≤ max (a.x - a.width / 2) (b.x - b.width / 2) := by
          rw [h0]; exact le_trans (by norm_num) (le_max_left _ _)
  · right
    calc min (a.y + a.height / 2) (b.y + b.height / 2) ≤ a.y + a.height / 2 := min_le_left _ _
      _ ≤ max (a.y - a.height / 2) (b.y - b.height / 2) := by
          rw [h0]; exact le_trans (by norm_num) (le_max_left _ _)
  · left
    calc min (a.x + a.width / 2) (b.x + b.width / 2) ≤ b.x + b.width / 2 := min_le_right _ _
      _ ≤ max (a.x - a.width / 2) (b.x - b.width / 2) := by
          rw [h0]; exact le_trans (by norm_num) (le_max_right _ _)
  · right
    calc min (a.y + a.height / 2) (b.y + b.height / 2) ≤ b.y + b.height / 2 := min_le_right _ _
      _ ≤ max (a.y - a.height / 2) (b.y - b.height / 2) := by
          rw [h0]; exact le_trans (by norm_num) (le_max_right _ _)

lemma calculate_iou_comm (a b : Bbox) : calculate_iou a b = calculate_iou b a := by
  simp only [calculate_iou]
  rw [max_comm (b.x - b.width / 2), max_comm (b.y - b.height / 2),
    min_comm (b.x + b.width / 2), min_comm (b.y + b.height / 2),
    add_comm (b.width * b.height)]

lemma calculate_iou_nonneg_le_one (a b : Bbox) :
    0 ≤ calculate_iou a b ∧ calculate_iou a b ≤ 1 := by
  simp only [calculate_iou]
  by_cases hc : min (a.x + a.width / 2) (b.x + b.width / 2) <
      max (a.x - a.width / 2) (b.x - b.width / 2) ∨
      min (a.y + a.height / 2) (b.y + b.height / 2) <
      max (a.y - a.height / 2) (b.y - b.height / 2)
  · rw [if_pos hc]; norm_num
  · rw [if_neg hc]
    push_neg at hc
    obtain ⟨hx, hy⟩ := hc
    set sx := min (a.x + a.width / 2) (b.x + b.width / 2) -
      max (a.x - a.width / 2) (b.x - b.width / 2) with hsx
    set sy := min (a.y + a.height / 2) (b.y + b.height / 2) -
      max (a.y - a.height / 2) (b.y - b.height / 2) with hsy
    have hsx0 : 0 ≤ sx := by rw [hsx]; linarith
    have hsy0 : 0 ≤ sy := by rw [hsy]; linarith
    have hsxw : sx ≤ a.width := by
      rw [hsx]
      have h1 : min (a.x + a.width / 2) (b.x + b.width / 2) ≤ a.x + a.width / 2 :=
        min_le_left _ _
      have h2 : a.x - a.width / 2 ≤ max (a.x - a.width / 2) (b.x - b.width / 2) :=
        le_max_left _ _
      linarith
    have hsyh : sy ≤ a.height := by
      rw [hsy]
      have h1 : min (a.y + a.height / 2) (b.y + b.height / 2) ≤ a.y + a.height / 2 :=
        min_le_left _ _
      have h2 : a.y - a.height / 2 ≤ max (a.y - a.height / 2) (b.y - b.height / 2) :=
        le_max_left _ _
      linarith
    have hsxw' : sx ≤ b.width := by
      rw [hsx]
      have h1 : min (a.x + a.width / 2) (b.x + b.width / 2) ≤ b.x + b.width / 2 :=
        min_le_right _ _
      have h2 : b.x - b.width / 2 ≤ max (a.x - a.width / 2) (b.x - b.width / 2) :=
        le_max_right _ _
      linarith
    have hsyh' : sy ≤ b.height := by
      rw [hsy]
      have h1 : min (a.y + a.height / 2) (b.y + b.height / 2) ≤ b.y + b.height / 2 :=
        min_le_right _ _
      have h2 : b.y - b.height / 2 ≤ max (a.y - a.height / 2) (b.y - b.height / 2) :=
        le_max_right _ _
      linarith
    have hinter : 0 ≤ sx * sy := mul_nonneg hsx0 hsy0
    have ha1 : sx * sy ≤ a.width * a.height := mul_le_mul hsxw hsyh hsy0 (le_trans hsx0 hsxw)
    have ha2 : sx * sy ≤ b.width * b.height := mul_le_mul hsxw' hsyh' hsy0 (le_trans hsx0 hsxw')
    by_cases hu : a.width * a.height + b.width * b.height - sx * sy ≤ 0
    · rw [if_pos hu]; norm_num
    · rw [if_neg hu]
      push_neg at hu
      constructor
      · exact div_nonneg hinter (le_of_lt hu)
      · rw [div_le_one hu]
        linarith

lemma calculate_iou_self (a : Bbox) (hw : 0 < a.width) (hh : 0 < a.height) :
    calculate_iou a a = 1 := by
  simp only [calculate_iou, max_self, min_self]
  have hx : ¬ (a.x + a.width / 2 < a.x - a.width / 2) := by intro h; linarith
  have hy : ¬ (a.y + a.height / 2 < a.y - a.height / 2) := by intro h; linarith
  rw [if_neg (by tauto)]
  have harea : (a.x + a.width / 2 - (a.x - a.width / 2)) *
      (a.y + a.height / 2 - (a.y - a.height / 2)) = a.width * a.height := by ring
  rw [harea]
  have hpos : 0 < a.width * a.height := mul_pos hw hh
  rw [if_neg (by linarith)]
  have : a.width * a.height + a.width * a.height - a.width * a.height
      = a.width * a.height := by ring
  rw [this, div_self (ne_of_gt hpos)]

/-- C6 counterexample: for the zero-area box `z = (0.5, 0.5, 0, 0)` the code
returns `calculate_iou(z, z) = 0`, not `1`, so the claim's unrestricted
`calculate_iou(a,a) == 1` is false. -/
theorem C6_counterexample :
    calculate_iou (Bbox.mk (1/2) (1/2) 0 0) (Bbox.mk (1/2) (1/2) 0 0) = 0 ∧
    calculate_iou (Bbox.mk (1/2) (1/2) 0 0) (Bbox.mk (1/2) (1/2) 0 0) ≠ 1 := by
  have h : calculate_iou (Bbox.mk (1/2) (1/2) 0 0) (Bbox.mk (1/2) (1/2) 0 0) = 0 := by
    norm_num [calculate_iou]
  exact ⟨h, by rw [h]; norm_num⟩

/-- C6 (amended): `calculate_iou` is symmetric and bounded in `[0,1]`;
`calculate_iou(a,a) = 1` for every box with positive width and height (for
zero-area boxes the code returns 0 instead); and the result is 0 whenever the
boxes are disjoint or either has zero area. -/
theorem C6_calculate_iou_properties (a b : Bbox) :
    calculate_iou a b = calculate_iou b a ∧
    (0 ≤ calculate_iou a b ∧ calculate_iou a b ≤ 1) ∧
    (0 < a.width → 0 < a.height → calculate_iou a a = 1) ∧
    (a.disjoint b ∨ a.width * a.height = 0 ∨ b.width * b.height = 0 →
      calculate_iou a b = 0) := by
  refine ⟨calculate_iou_comm a b, calculate_iou_nonneg_le_one a b,
    fun hw hh => calculate_iou_self a hw hh, fun h => ?_⟩
  rcases h with h | h | h
  · exact calculate_iou_eq_zero_of_disjoint a b h
  · exact calculate_iou_eq_zero_of_zero_area a b (Or.inl h)
  · exact calculate_iou_eq_zero_of_zero_area a b (Or.inr h)

/-- C6 witness: `C6_calculate_iou_properties` instantiated at the boxes
`(0.5,0.5,0.2,0.2)` and the disjoint `(0.9,0.9,0.1,0.1)`. -/
theorem C6_calculate_iou_witness :
    calculate_iou (Bbox.mk (1/2) (1/2) (1/5) (1/5)) (Bbox.mk (1/2) (1/2) (1/5) (1/5)) = 1 ∧
    calculate_iou (Bbox.mk (1/2) (1/2) (1/5) (1/5)) (Bbox.mk (9/10) (9/10) (1/10) (1/10)) = 0 :=
  ⟨(C6_calculate_iou_properties (Bbox.mk (1/2) (1/2) (1/5) (1/5))
      (Bbox.mk (1/2) (1/2) (1/5) (1/5))).2.2.1 (by norm_num) (by norm_num),
   (C6_calculate_iou_properties (Bbox.mk (1/2) (1/2) (1/5) (1/5))
      (Bbox.mk (9/10) (9/10) (1/10) (1/10))).2.2.2
      (Or.inl (by left; norm_num [Bbox.disjoint]))⟩

/-- C9: `transform_predictions_vectorized` with offset `none` returns the
record unchanged (so repeated `none` calls are idempotent), and with offset
`(ox, oy)` it shifts exactly the `x`/`y` of every detection by `(ox, oy)`,
leaving `confidence`, `class`, `width` and `height` untouched. -/
theorem C9_transform_predictions (p : Predictions) (ox oy : ℤ) :
    transform_predictions_vectorized p none = p ∧
    transform_predictions_vectorized (transform_predictions_vectorized p none) none = p ∧
    (transform_predictions_vectorized p (some (ox, oy))).dets
      = p.dets.map fun d => { d with x := d.x + (ox : ℚ), y := d.y + (oy : ℚ) } := by
  refine ⟨rfl, rfl, ?_⟩
  cases hp : p.predictions with
  | none => simp [transform_predictions_vectorized, Predictions.dets, hp]
  | some dets =>
    cases dets with
    | nil => simp [transform_predictions_vectorized, Predictions.dets, hp]
    | cons d ds => simp [transform_predictions_vectorized, Predictions.dets, hp]

/-- C5: after `update_from_detections`, `get_roi(source_id)` returns exactly
the value described by the claim (`roiUpdateSpec` applied to the previously
stored box): `none` for empty detections or a too-small box, otherwise the
squared/expanded enclosing box, smoothed against the previous box if any. -/
theorem C5_update_from_detections (p : ROIParams) (st : ROIStateMap) (source_id : ℤ)
    (dets : List (ℚ × ℚ × ℚ × ℚ)) (frame_shape : ℤ × ℤ) :
    ROIState.get_roi (ROIState.update_from_detections p st source_id dets frame_shape)
      source_id = roiUpdateSpec p (st source_id) dets frame_shape := by
  cases dets with
  | nil => simp [ROIState.get_roi, ROIState.update_from_detections, roiUpdateSpec]
  | cons d ds =>
    simp only [ROIState.get_roi, ROIState.update_from_detections, roiUpdateSpec]
    split
    · simp
    · cases st source_id <;> simp

/-- C7: the factory raises `ValueError` exactly on the invalid configurations
the claim lists — an unsupported (lower-cased) mode, or temporal mode with
`min_frames < 1`, `max_gap < 0`, a hysteresis confidence outside `[0,1]`, or
`persist_conf > appear_conf` — and returns a stabilizer on every other
configuration. -/
theorem C7_create_stabilization_strategy_validation (config : StabilizationConfig) :
    (∃ e, create_stabilization_strategy config = Except.error e) ↔
    (¬ (config.mode.toLower = "none" ∨ config.mode.toLower = "temporal") ∨
     (config.mode.toLower = "temporal" ∧
       (config.temporal_min_frames < 1 ∨ config.temporal_max_gap < 0 ∨
        config.hysteresis_appear_conf < 0 ∨ 1 < config.hysteresis_appear_conf ∨
        config.hysteresis_persist_conf < 0 ∨ 1 < config.hysteresis_persist_conf ∨
        config.hysteresis_appear_conf < config.hysteresis_persist_conf))) := by
  simp only [create_stabilization_strategy]
  generalize config.mode.toLower = m
  by_cases h1 : m = "none" ∨ m = "temporal"
  · rw [if_neg (not_not_intro h1)]
    rcases h1 with h1 | h1
    · subst h1
      rw [if_pos rfl]
      constructor
      · rintro ⟨e, he⟩
        exact absurd he (by simp)
      · rintro (h | ⟨h, _⟩)
        · exact absurd (Or.inl rfl) h
        · exact absurd h (by decide)
    · subst h1
      rw [if_neg (by decide), if_pos rfl]
      by_cases g1 : config.temporal_min_frames < 1
      · rw [if_pos g1]
        exact ⟨fun _ => Or.inr ⟨rfl, Or.inl g1⟩, fun _ => ⟨_, rfl⟩⟩
      rw [if_neg g1]
      by_cases g2 : config.temporal_max_gap < 0
      · rw [if_pos g2]
        exact ⟨fun _ => Or.inr ⟨rfl, Or.inr (Or.inl g2)⟩, fun _ => ⟨_, rfl⟩⟩
      rw [if_neg g2]
      by_cases g3 : 0 ≤ config.hysteresis_appear_conf ∧ config.hysteresis_appear_conf ≤ 1
      case neg =>
        rw [if_pos g3]
        refine ⟨fun _ => Or.inr ⟨rfl, ?_⟩, fun _ => ⟨_, rfl⟩⟩
        rcases not_and_or.mp g3 with h | h
        · exact Or.inr (Or.inr (Or.inl (not_le.mp h)))
        · exact Or.inr (Or.inr (Or.inr (Or.inl (not_le.mp h))))
      rw [if_neg (not_not_intro g3)]
      by_cases g4 : 0 ≤ config.hysteresis_persist_conf ∧ config.hysteresis_persist_conf ≤ 1
      case neg =>
        rw [if_pos g4]
        refine ⟨fun _ => Or.inr ⟨rfl, ?_⟩, fun _ => ⟨_, rfl⟩⟩
        rcases not_and_or.mp g4 with h | h
        · exact Or.inr (Or.inr (Or.inr (Or.inr (Or.inl (not_le.mp h)))))
        · exact Or.inr (Or.inr (Or.inr (Or.inr (Or.inr (Or.inl (not_le.mp h))))))
      rw [if_neg (not_not_intro g4)]
      by_cases g5 : config.hysteresis_appear_conf < config.hysteresis_persist_conf
      · rw [if_pos g5]
        exact ⟨fun _ =>
          Or.inr ⟨rfl, Or.inr (Or.inr (Or.inr (Or.inr (Or.inr (Or.inr g5)))))⟩,
          fun _ => ⟨_, rfl⟩⟩
      · rw [if_neg g5]
        constructor
        · rintro ⟨e, he⟩
          exact absurd he (by simp)
        · rintro (h | ⟨-, h⟩)
          · exact absurd (Or.inr rfl) h
          · rcases h with h | h | h | h | h | h | h
            · exact absurd h g1
            · exact absurd h g2
            · exact absurd h (not_lt.mpr g3.1)
            · exact absurd h (not_lt.mpr g3.2)
            · exact absurd h (not_lt.mpr g4.1)
            · exact absurd h (not_lt.mpr g4.2)
            · exact absurd h g5
  · rw [if_pos h1]
    exact ⟨fun _ => Or.inl h1, fun _ => ⟨_, rfl⟩⟩

lemma trackMem_nil (t : DetectionTrack) : ¬ trackMem t [] := by
  rintro ⟨r, hr, -⟩
  exact absurd hr (List.not_mem_nil r)

lemma trackMem_cons (t : DetectionTrack) (c : String) (ts : List DetectionTrack)
    (rest : TrackTable) :
    trackMem t ((c, ts) :: rest) ↔ t ∈ ts ∨ trackMem t rest := by
  constructor
  · rintro ⟨r, hr, hm⟩
    rcases List.mem_cons.mp hr with rfl | hr
    · exact Or.inl hm
    · exact Or.inr ⟨r, hr, hm⟩
  · rintro (hm | ⟨r, hr, hm⟩)
    · exact ⟨(c, ts), List.mem_cons_self _ _, hm⟩
    · exact ⟨r, List.mem_cons_of_mem _ hr, hm⟩

lemma mem_evictRow (g : ℤ) (ts : List DetectionTrack) (t : DetectionTrack) :
    t ∈ evictRow g ts ↔ t ∈ ts ∧ (t.gap_frames : ℤ) ≤ g := by
  simp [evictRow, List.mem_filter]

lemma trackMem_evictExpired (g : ℤ) (tbl : TrackTable) (t : DetectionTrack) :
    trackMem t (evictExpired g tbl) ↔ trackMem t tbl ∧ (t.gap_frames : ℤ) ≤ g := by
  induction tbl with
  | nil => simp [evictExpired, trackMem_nil]
  | cons r rest ih =>
    obtain ⟨c, ts⟩ := r
    by_cases he : (evictRow g ts).isEmpty
    · have hnone : ∀ u, u ∈ ts → ¬ ((u.gap_frames : ℤ) ≤ g) := by
        intro u hu hle
        have : u ∈ evictRow g ts := (mem_evictRow g ts u).mpr ⟨hu, hle⟩
        rw [List.isEmpty_iff] at he
        rw [he] at this
        exact absurd this (List.not_mem_nil u)
      simp only [evictExpired, he, if_pos]
      rw [ih, trackMem_cons]
      constructor
      · rintro ⟨h1, h2⟩
        exact ⟨Or.inr h1, h2⟩
      · rintro ⟨h1 | h1, h2⟩
        · exact absurd h2 (hnone t h1)
        · exact ⟨h1, h2⟩
    · simp only [evictExpired, he, if_neg, Bool.false_eq_true, not_false_iff]
      rw [trackMem_cons, trackMem_cons, mem_evictRow, ih]
      constructor
      · rintro (⟨h1, h2⟩ | ⟨h1, h2⟩)
        · exact ⟨Or.inl h1, h2⟩
        · exact ⟨Or.inr h1, h2⟩
      · rintro ⟨h1 | h1, h2⟩
        · exact Or.inl ⟨h1, h2⟩
        · exact Or.inr ⟨h1, h2⟩

/-- C4: each `process` call evicts exactly the tracks whose `gap_frames`
exceeds `max_gap`. -/
theorem C4_eviction_exactly_on_gap_overflow (p : TemporalHysteresisStabilizer)
    (dets : List Detection) (tracks : TrackTable) :
    (∀ t, trackMem t (p.process dets tracks).2 → (t.gap_frames : ℤ) ≤ p.max_gap) ∧
    (∀ t, trackMem t (p.afterMark dets tracks) →
      (((t.gap_frames : ℤ) ≤ p.max_gap) ↔ trackMem t (p.process dets tracks).2)) ∧
    (∀ d t, ((hysteresisStep p d t).gap_frames = 0 ∨
             (hysteresisStep p d t).gap_frames = t.gap_frames + 1) ∧
            t.mark_missed.gap_frames = t.gap_frames + 1) := by
  refine ⟨?_, ?_, ?_⟩
  · intro t ht
    exact ((trackMem_evictExpired p.max_gap _ t).mp ht).2
  · intro t ht
    constructor
    · intro hle
      exact (trackMem_evictExpired p.max_gap _ t).mpr ⟨ht, hle⟩
    · intro hm
      exact ((trackMem_evictExpired p.max_gap _ t).mp hm).2
  · intro d t
    constructor
    · simp only [hysteresisStep]
      by_cases hth : (if t.confirmed then p.persist_conf else p.appear_conf) ≤ d.confidence
      · rw [if_pos hth]
        by_cases hcf : (t.update d).confirmed = false ∧
            p.min_frames ≤ ((t.update d).consecutive_frames : ℤ)
        · rw [if_pos hcf]
          left
          simp [DetectionTrack.update]
        · rw [if_neg hcf]
          left
          simp [DetectionTrack.update]
      · rw [if_neg hth]
        right
        rfl
    · rfl

lemma getRow_eq_none_iff (tbl : TrackTable) (cls : String) :
    getRow tbl cls = none ↔ cls ∉ tbl.map Prod.fst := by
  induction tbl with
  | nil => simp [getRow]
  | cons r rest ih =>
    obtain ⟨c, ts⟩ := r
    by_cases hc : c = cls
    · subst hc
      simp [getRow]
    · simp [getRow, hc, ih, Ne.symm hc]

lemma getRow_of_mem (tbl : TrackTable) (hWF : TrackTableWF tbl) (c : String)
    (ts : List DetectionTrack) (h : (c, ts) ∈ tbl) : getRow tbl c = some ts := by
  induction tbl with
  | nil => exact absurd h (List.not_mem_nil _)
  | cons r rest ih =>
    obtain ⟨c', ts'⟩ := r
    rcases List.mem_cons.mp h with heq | htail
    · obtain ⟨rfl, rfl⟩ := Prod.mk.injEq .. ▸ heq
      simp [getRow]
    · have hne : c' ≠ c := by
        rintro rfl
        have : c' ∈ rest.map Prod.fst := List.mem_map.mpr ⟨(c', ts), htail, rfl⟩
        exact absurd this (List.nodup_cons.mp hWF).1
      simp only [getRow, if_neg hne]
      exact ih (List.nodup_cons.mp hWF).2 htail

lemma keys_setRow (tbl : TrackTable) (cls : String) (ts' : List DetectionTrack) :
    (setRow tbl cls ts').map Prod.fst = tbl.map Prod.fst := by
  induction tbl with
  | nil => rfl
  | cons r rest ih =>
    obtain ⟨c, ts⟩ := r
    by_cases hc : c = cls <;> simp [setRow, hc, ih]

lemma keys_appendTrack_of_some (tbl : TrackTable) (cls : String) (t : DetectionTrack)
    (h : (getRow tbl cls).isSome) :
    (appendTrack tbl cls t).map Prod.fst = tbl.map Prod.fst := by
  induction tbl with
  | nil => simp [getRow] at h
  | cons r rest ih =>
    obtain ⟨c, ts⟩ := r
    by_cases hc : c = cls
    · simp [appendTrack, hc]
    · simp only [getRow, if_neg hc] at h
      simp [appendTrack, hc, ih h]

lemma keys_appendTrack_of_none (tbl : TrackTable) (cls : String) (t : DetectionTrack)
    (h : getRow tbl cls = none) :
    (appendTrack tbl cls t).map Prod.fst = tbl.map Prod.fst ++ [cls] := by
  induction tbl with
  | nil => rfl
  | cons r rest ih =>
    obtain ⟨c, ts⟩ := r
    by_cases hc : c = cls
    · subst hc
      simp [getRow] at h
    · simp only [getRow, if_neg hc] at h
      simp [appendTrack, hc, ih h]

lemma WF_appendTrack (tbl : TrackTable) (cls : String) (t : DetectionTrack)
    (hWF : TrackTableWF tbl) : TrackTableWF (appendTrack tbl cls t) := by
  cases h : getRow tbl cls with
  | some ts =>
    unfold TrackTableWF
    rw [keys_appendTrack_of_some tbl cls t (by rw [h]; rfl)]
    exact hWF
  | none =>
    unfold TrackTableWF
    rw [keys_appendTrack_of_none tbl cls t h]
    have hnot : cls ∉ tbl.map Prod.fst := (getRow_eq_none_iff tbl cls).mp h
    have hWF' : (tbl.map Prod.fst).Nodup := hWF
    simp [List.nodup_append, hWF', hnot]

lemma WF_setRow (tbl : TrackTable) (cls : String) (ts' : List DetectionTrack)
    (hWF : TrackTableWF tbl) : TrackTableWF (setRow tbl cls ts') := by
  unfold TrackTableWF
  rw [keys_setRow]
  exact hWF

lemma WF_processDetection (p : TemporalHysteresisStabilizer) (d : Detection)
    (acc : TrackTable × List (String × ℕ)) (hWF : TrackTableWF acc.1) :
    TrackTableWF (processDetection p acc d).1 := by
  unfold processDetection
  cases hrow : getRow acc.1 d.cls with
  | none =>
    by_cases hconf : p.appear_conf ≤ d.confidence
    · simp only [hrow, if_pos hconf]
      exact WF_appendTrack _ _ _ hWF
    · simp only [hrow, if_neg hconf]
      exact hWF
  | some ts =>
    cases hfu : firstUnmatched acc.2 d.cls 0 ts.length with
    | none =>
      by_cases hconf : p.appear_conf ≤ d.confidence
      · simp only [hrow, hfu, if_pos hconf]
        exact WF_appendTrack _ _ _ hWF
      · simp only [hrow, hfu, if_neg hconf]
        exact hWF
    | some i =>
      simp only [hrow, hfu]
      exact WF_setRow _ _ _ hWF

lemma WF_foldl (p : TemporalHysteresisStabilizer) (dets : List Detection)
    (acc : TrackTable × List (String × ℕ)) (hWF : TrackTableWF acc.1) :
    TrackTableWF (dets.foldl (processDetection p) acc).1 := by
  induction dets generalizing acc with
  | nil => exact hWF
  | cons d ds ih =>
    exact ih _ (WF_processDetection p d acc hWF)

lemma getRow_setRow_self (tbl : TrackTable) (c : String) (ts0 ts' : List DetectionTrack)
    (h : getRow tbl c = some ts0) : getRow (setRow tbl c ts') c = some ts' := by
  induction tbl with
  | nil => simp [getRow] at h
  | cons r rest ih =>
    obtain ⟨c', us⟩ := r
    by_cases hc : c' = c
    · simp [setRow, getRow, hc]
    · simp only [getRow, if_neg hc] at h
      simp [setRow, getRow, hc, ih h]

lemma getRow_setRow_ne (tbl : TrackTable) (c cls : String) (ts' : List DetectionTrack)
    (hne : cls ≠ c) : getRow (setRow tbl c ts') cls = getRow tbl cls := by
  induction tbl with
  | nil => rfl
  | cons r rest ih =>
    obtain ⟨c', us⟩ := r
    by_cases hc : c' = c
    · subst hc
      simp [setRow, getRow, if_neg (Ne.symm hne)]
    · by_cases hc2 : c' = cls
      · simp [setRow, getRow, hc, hc2, hne]
      · simp [setRow, getRow, hc, hc2, ih]

lemma getRow_appendTrack_self (tbl : TrackTable) (c : String) (t : DetectionTrack) :
    getRow (appendTrack tbl c t) c = some ((getRow tbl c).getD [] ++ [t]) := by
  induction tbl with
  | nil => simp [appendTrack, getRow]
  | cons r rest ih =>
    obtain ⟨c', us⟩ := r
    by_cases hc : c' = c
    · simp [appendTrack, getRow, hc]
    · simp [appendTrack, getRow, hc, ih]

lemma getRow_appendTrack_ne (tbl : TrackTable) (c cls : String) (t : DetectionTrack)
    (hne : cls ≠ c) : getRow (appendTrack tbl c t) cls = getRow tbl cls := by
  induction tbl with
  | nil => simp [appendTrack, getRow, Ne.symm hne]
  | cons r rest ih =>
    obtain ⟨c', us⟩ := r
    by_cases hc : c' = c
    · subst hc
      simp [appendTrack, getRow, if_neg (Ne.symm hne)]
    · by_cases hc2 : c' = cls
      · simp [appendTrack, getRow, hc, hc2, hne]
      · simp [appendTrack, getRow, hc, hc2, ih]

lemma modifyTrack_get? (f : DetectionTrack → DetectionTrack) (ts : List DetectionTrack) :
    ∀ i j, (modifyTrack f i ts).get? j = if j = i then (ts.get? j).map f else ts.get? j := by
  induction ts with
  | nil =>
    intro i j
    simp [modifyTrack]
  | cons t ts ih =>
    intro i j
    cases i with
    | zero =>
      cases j with
      | zero => simp [modifyTrack]
      | succ j => simp [modifyTrack]
    | succ i =>
      cases j with
      | zero => simp [modifyTrack]
      | succ j =>
        simp only [modifyTrack, List.get?_cons_succ, ih i j, Nat.succ_eq_add_one]
        by_cases hj : j = i <;> simp [hj]

lemma hysteresisStep_gap_zero_conf (p : TemporalHysteresisStabilizer) (d : Detection)
    (t : DetectionTrack) (hpa : p.persist_conf ≤ p.appear_conf) :
    (hysteresisStep p d t).gap_frames = 0 →
    p.persist_conf ≤ (hysteresisStep p d t).confidence := by
  simp only [hysteresisStep]
  by_cases hth : (if t.confirmed then p.persist_conf else p.appear_conf) ≤ d.confidence
  · have hpc : p.persist_conf ≤ d.confidence := by
      by_cases hcf : t.confirmed
      · rw [if_pos hcf] at hth
        exact hth
      · rw [if_neg hcf] at hth
        exact hpa.trans hth
    rw [if_pos hth]
    by_cases hcf2 : (t.update d).confirmed = false ∧
        p.min_frames ≤ ((t.update d).consecutive_frames : ℤ)
    · rw [if_pos hcf2]
      intro _
      simpa [DetectionTrack.update] using hpc
    · rw [if_neg hcf2]
      intro _
      simpa [DetectionTrack.update] using hpc
  · rw [if_neg hth]
    intro hgap
    simp [DetectionTrack.mark_missed] at hgap

lemma createTrack_conf (p : TemporalHysteresisStabilizer) (d : Detection)
    (hpa : p.persist_conf ≤ p.appear_conf) (hconf : p.appear_conf ≤ d.confidence) :
    p.persist_conf ≤ (DetectionTrack.create d).confidence := by
  simpa [DetectionTrack.create] using hpa.trans hconf

lemma matchInv_processDetection (p : TemporalHysteresisStabilizer) (d : Detection)
    (acc : TrackTable × List (String × ℕ)) (hpa : p.persist_conf ≤ p.appear_conf)
    (h : matchInv p acc) : matchInv p (processDetection p acc d) := by
  unfold processDetection
  cases hrow : getRow acc.1 d.cls with
  | none =>
    by_cases hconf : p.appear_conf ≤ d.confidence
    · simp only [if_pos hconf]
      intro cls ts hget i t hti
      by_cases hc : cls = d.cls
      · subst hc
        rw [getRow_appendTrack_self, hrow] at hget
        simp only [Option.getD_none, List.nil_append, Option.some.injEq] at hget
        subst hget
        cases i with
        | zero =>
          simp only [List.get?_cons_zero, Option.some.injEq] at hti
          subst hti
          exact Or.inl fun _ => createTrack_conf p d hpa hconf
        | succ i => simp at hti
      · rw [getRow_appendTrack_ne _ _ _ _ hc] at hget
        exact h cls ts hget i t hti
    · simp only [if_neg hconf]
      exact h
  | some ts0 =>
    cases hfu : firstUnmatched acc.2 d.cls 0 ts0.length with
    | none =>
      by_cases hconf : p.appear_conf ≤ d.confidence
      · simp only [hrow, hfu, if_pos hconf]
        intro cls ts hget i t hti
        by_cases hc : cls = d.cls
        · subst hc
          rw [getRow_appendTrack_self, hrow] at hget
          simp only [Option.getD_some, Option.some.injEq] at hget
          subst hget
          by_cases hi : i < ts0.length
          · rw [List.get?_append hi] at hti
            exact h d.cls ts0 hrow i t hti
          · rw [List.get?_append_right (le_of_not_lt hi)] at hti
            have : i - ts0.length = 0 := by
              rcases Nat.lt_or_ge (i - ts0.length) 1 with h1 | h1
              · omega
              · rw [List.get?_eq_none.mpr (by simp; omega)] at hti
                exact absurd hti (by simp)
            rw [this] at hti
            simp only [List.get?_cons_zero, Option.some.injEq] at hti
            subst hti
            exact Or.inl fun _ => createTrack_conf p d hpa hconf
        · rw [getRow_appendTrack_ne _ _ _ _ hc] at hget
          exact h cls ts hget i t hti
      · simp only [hrow, hfu, if_neg hconf]
        exact h
    | some j =>
      simp only [hrow, hfu]
      intro cls ts hget i t hti
      by_cases hc : cls = d.cls
      · subst hc
        rw [getRow_setRow_self _ _ ts0 _ hrow] at hget
        simp only [Option.some.injEq] at hget
        subst hget
        rw [modifyTrack_get?] at hti
        by_cases hij : i = j
        · subst hij
          rw [if_pos rfl] at hti
          cases hts : ts0.get? i with
          | none => rw [hts] at hti; simp at hti
          | some t0 =>
            rw [hts] at hti
            simp only [Option.map_some', Option.some.injEq] at hti
            subst hti
            exact Or.inl (hysteresisStep_gap_zero_conf p d t0 hpa)
        · rw [if_neg hij] at hti
          rcases h d.cls ts0 hrow i t hti with hl | hr
          · exact Or.inl hl
          · refine Or.inr ?_
            simp only [List.mem_cons, not_or]
            exact ⟨by simp [Prod.ext_iff, hij], hr⟩
      · rw [getRow_setRow_ne _ _ _ _ hc] at hget
        rcases h cls ts hget i t hti with hl | hr
        · exact Or.inl hl
        · refine Or.inr ?_
          simp only [List.mem_cons, not_or]
          exact ⟨by simp [Prod.ext_iff, hc], hr⟩

lemma matchInv_foldl (p : TemporalHysteresisStabilizer) (dets : List Detection)
    (acc : TrackTable × List (String × ℕ)) (hpa : p.persist_conf ≤ p.appear_conf)
    (h : matchInv p acc) : matchInv p (dets.foldl (processDetection p) acc) := by
  induction dets generalizing acc with
  | nil => exact h
  | cons d ds ih => exact ih _ (matchInv_processDetection p d acc hpa h)

lemma matchInv_init (p : TemporalHysteresisStabilizer) (tracks : TrackTable) :
    matchInv p (tracks, []) := by
  intro cls ts _ i t _
  exact Or.inr (List.not_mem_nil _)

lemma markRow_get? (matched : List (String × ℕ)) (cls : String)
    (ts : List DetectionTrack) : ∀ i0 j, (markRow matched cls i0 ts).get? j =
      (ts.get? j).map fun t =>
        if (cls, i0 + j) ∈ matched then t else t.mark_missed := by
  induction ts with
  | nil =>
    intro i0 j
    simp [markRow]
  | cons t ts ih =>
    intro i0 j
    cases j with
    | zero => simp [markRow]
    | succ j =>
      simp only [markRow, List.get?_cons_succ, ih (i0 + 1) j]
      have harith : i0 + 1 + j = i0 + (j + 1) := by omega
      rw [harith]

lemma markUnmatched_eq_map (matched : List (String × ℕ)) (tbl : TrackTable) :
    markUnmatched matched tbl = tbl.map fun r => (r.1, markRow matched r.1 0 r.2) := by
  induction tbl with
  | nil => rfl
  | cons r rest ih =>
    obtain ⟨c, ts⟩ := r
    simp [markUnmatched, ih]

lemma mem_emitAll (tbl : TrackTable) (d : Detection) :
    d ∈ emitAll tbl ↔ ∃ r, r ∈ tbl ∧ d ∈ emitRow r.2 := by
  induction tbl with
  | nil => simp [emitAll]
  | cons r rest ih =>
    obtain ⟨c, ts⟩ := r
    simp only [emitAll, List.mem_append, ih]
    constructor
    · rintro (hd | ⟨r, hr, hd⟩)
      · exact ⟨(c, ts), List.mem_cons_self _ _, hd⟩
      · exact ⟨r, List.mem_cons_of_mem _ hr, hd⟩
    · rintro ⟨r, hr, hd⟩
      rcases List.mem_cons.mp hr with rfl | hr
      · exact Or.inl hd
      · exact Or.inr ⟨r, hr, hd⟩

lemma mem_emitRow (ts : List DetectionTrack) (d : Detection) :
    d ∈ emitRow ts ↔
    ∃ t, t ∈ ts ∧ (t.confirmed = true ∧ t.gap_frames = 0) ∧ d = emitTrack t := by
  simp only [emitRow, List.mem_filterMap]
  constructor
  · rintro ⟨t, ht, hsome⟩
    by_cases hcond : t.confirmed = true ∧ t.gap_frames = 0
    · rw [if_pos hcond] at hsome
      exact ⟨t, ht, hcond, (Option.some.injEq .. ▸ hsome).symm⟩
    · rw [if_neg hcond] at hsome
      exact absurd hsome (by simp)
  · rintro ⟨t, ht, hcond, rfl⟩
    exact ⟨t, ht, by rw [if_pos hcond]⟩

/-- C10: every detection emitted by `process` has confidence at least
`persist_conf`. -/
theorem C10_emitted_confidence_ge_persist (p : TemporalHysteresisStabilizer)
    (dets : List Detection) (tracks : TrackTable) (hWF : TrackTableWF tracks)
    (hpa : p.persist_conf ≤ p.appear_conf) :
    ∀ d ∈ (p.process dets tracks).1, p.persist_conf ≤ d.confidence := by
  intro d hd
  simp only [TemporalHysteresisStabilizer.process] at hd
  rw [mem_emitAll] at hd
  obtain ⟨r, hr, hdr⟩ := hd
  rw [TemporalHysteresisStabilizer.afterMark, markUnmatched_eq_map] at hr
  obtain ⟨r0, hr0, rfl⟩ := List.mem_map.mp hr
  rw [mem_emitRow] at hdr
  obtain ⟨t, ht, ⟨hcf, hgap⟩, rfl⟩ := hdr
  obtain ⟨j, hj⟩ := List.mem_iff_get?.mp ht
  rw [markRow_get?] at hj
  cases ht0 : r0.2.get? j with
  | none =>
    rw [ht0] at hj
    exact absurd hj (by simp)
  | some t0 =>
    rw [ht0] at hj
    simp only [Option.map_some', Option.some.injEq] at hj
    by_cases hm : (r0.1, 0 + j) ∈ (dets.foldl (processDetection p) (tracks, [])).2
    · rw [if_pos hm] at hj
      subst hj
      have hWF' : TrackTableWF (dets.foldl (processDetection p) (tracks, [])).1 :=
        WF_foldl p dets (tracks, []) hWF
      have hrow : getRow (dets.foldl (processDetection p) (tracks, [])).1 r0.1
          = some r0.2 := getRow_of_mem _ hWF' _ _ hr0
      have hinv := matchInv_foldl p dets (tracks, []) hpa (matchInv_init p tracks)
      rcases hinv r0.1 r0.2 hrow (0 + j) t0 (by simpa using ht0) with hl | hrr
      · simpa [emitTrack] using hl hgap
      · exact absurd hm hrr
    · rw [if_neg hm] at hj
      subst hj
      simp [DetectionTrack.mark_missed] at hgap

lemma hysteresisStep_qual (p : TemporalHysteresisStabilizer) (d : Detection)
    (t : DetectionTrack) (hpa : p.persist_conf ≤ p.appear_conf)
    (hd : p.appear_conf ≤ d.confidence) :
    (hysteresisStep p d t).x = d.x ∧ (hysteresisStep p d t).y = d.y ∧
    (hysteresisStep p d t).width = d.width ∧
    (hysteresisStep p d t).height = d.height ∧
    (hysteresisStep p d t).gap_frames = 0 ∧
    (hysteresisStep p d t).class_name = t.class_name := by
  have hth : (if t.confirmed then p.persist_conf else p.appear_conf) ≤ d.confidence := by
    by_cases hcf : t.confirmed
    · rw [if_pos hcf]
      exact hpa.trans hd
    · rw [if_neg hcf]
      exact hd
  simp only [hysteresisStep, if_pos hth]
  by_cases hcf2 : (t.update d).confirmed = false ∧
      p.min_frames ≤ ((t.update d).consecutive_frames : ℤ)
  · rw [if_pos hcf2]
    simp [DetectionTrack.update]
  · rw [if_neg hcf2]
    simp [DetectionTrack.update]

lemma twoDetFrame1 (p : TemporalHysteresisStabilizer) (A B : Detection)
    (hc : B.cls = A.cls) (hpa : p.persist_conf ≤ p.appear_conf)
    (hA : p.appear_conf ≤ A.confidence) (hB : p.appear_conf ≤ B.confidence)
    (hg : 0 ≤ p.max_gap) :
    (p.process [A, B] []).2
      = [(A.cls, [hysteresisStep p B (DetectionTrack.create A)])] := by
  have hgap : (hysteresisStep p B (DetectionTrack.create A)).gap_frames = 0 :=
    (hysteresisStep_qual p B _ hpa hB).2.2.2.2.1
  simp [TemporalHysteresisStabilizer.process, TemporalHysteresisStabilizer.afterMark,
    processDetection, getRow, setRow, appendTrack, firstUnmatched, modifyTrack,
    markUnmatched, markRow, evictExpired, evictRow, hc, hA, hB, hgap, hg]

lemma twoDetFrame2 (p : TemporalHysteresisStabilizer) (A B : Detection)
    (t : DetectionTrack) (hc : B.cls = A.cls) (hpa : p.persist_conf ≤ p.appear_conf)
    (hA : p.appear_conf ≤ A.confidence) (hB : p.appear_conf ≤ B.confidence)
    (hg1 : 1 ≤ p.max_gap) :
    (p.process [A, B] [(A.cls, [t])]).2
      = [(A.cls, [hysteresisStep p A t, (DetectionTrack.create B).mark_missed])] := by
  have hgap : (hysteresisStep p A t).gap_frames = 0 :=
    (hysteresisStep_qual p A _ hpa hA).2.2.2.2.1
  have hg0 : 0 ≤ p.max_gap := le_trans (by norm_num) hg1
  simp [TemporalHysteresisStabilizer.process, TemporalHysteresisStabilizer.afterMark,
    processDetection, getRow, setRow, appendTrack, firstUnmatched, modifyTrack,
    markUnmatched, markRow, evictExpired, evictRow, DetectionTrack.mark_missed,
    DetectionTrack.create, hc, hA, hB, hgap, hg0, hg1]

lemma twoDetStep (p : TemporalHysteresisStabilizer) (A B : Detection)
    (t0 t1 : DetectionTrack) (hc : B.cls = A.cls)
    (hpa : p.persist_conf ≤ p.appear_conf)
    (hA : p.appear_conf ≤ A.confidence) (hB : p.appear_conf ≤ B.confidence)
    (hg : 0 ≤ p.max_gap) :
    (p.process [A, B] [(A.cls, [t0, t1])]).2
      = [(A.cls, [hysteresisStep p A t0, hysteresisStep p B t1])] := by
  have hgap0 : (hysteresisStep p A t0).gap_frames = 0 :=
    (hysteresisStep_qual p A _ hpa hA).2.2.2.2.1
  have hgap1 : (hysteresisStep p B t1).gap_frames = 0 :=
    (hysteresisStep_qual p B _ hpa hB).2.2.2.2.1
  simp [TemporalHysteresisStabilizer.process, TemporalHysteresisStabilizer.afterMark,
    processDetection, getRow, setRow, appendTrack, firstUnmatched, modifyTrack,
    markUnmatched, markRow, evictExpired, evictRow, hc, hA, hB, hgap0, hgap1, hg]

lemma twoDetRun (p : TemporalHysteresisStabilizer) (A B : Detection)
    (hc : B.cls = A.cls) (hpa : p.persist_conf ≤ p.appear_conf)
    (hA : p.appear_conf ≤ A.confidence) (hB : p.appear_conf ≤ B.confidence)
    (hg1 : 1 ≤ p.max_gap) :
    ∀ n, 2 ≤ n → ∃ t0 t1,
      processN p (List.replicate n [A, B]) [] = [(A.cls, [t0, t1])] ∧
      t0.posQuad = A.posQuad ∧ t1.posQuad = B.posQuad ∧
      t0.class_name = A.cls ∧ t1.class_name = A.cls := by
  have hg0 : 0 ≤ p.max_gap := le_trans (by norm_num) hg1
  intro n hn
  induction n, hn using Nat.le_induction with
  | base =>
    have h1 : (p.process [A, B] []).2
        = [(A.cls, [hysteresisStep p B (DetectionTrack.create A)])] :=
      twoDetFrame1 p A B hc hpa hA hB hg0
    have h2 : (p.process [A, B]
        [(A.cls, [hysteresisStep p B (DetectionTrack.create A)])]).2
        = [(A.cls, [hysteresisStep p A (hysteresisStep p B (DetectionTrack.create A)),
            (DetectionTrack.create B).mark_missed])] :=
      twoDetFrame2 p A B _ hc hpa hA hB hg1
    refine ⟨hysteresisStep p A (hysteresisStep p B (DetectionTrack.create A)),
      (DetectionTrack.create B).mark_missed, ?_, ?_, ?_, ?_, ?_⟩
    · show processN p (List.replicate 2 [A, B]) [] = _
      simp only [processN, List.replicate, List.foldl]
      rw [h1, h2]
    · have hq := hysteresisStep_qual p A
        (hysteresisStep p B (DetectionTrack.create A)) hpa hA
      simp [DetectionTrack.posQuad, Detection.posQuad, hq.1, hq.2.1, hq.2.2.1, hq.2.2.2.1]
    · simp [DetectionTrack.posQuad, Detection.posQuad, DetectionTrack.mark_missed,
        DetectionTrack.create]
    · have hq := hysteresisStep_qual p A
        (hysteresisStep p B (DetectionTrack.create A)) hpa hA
      have hq2 := hysteresisStep_qual p B (DetectionTrack.create A) hpa hB
      rw [hq.2.2.2.2.2, hq2.2.2.2.2.2]
      simp [DetectionTrack.create]
    · simp [DetectionTrack.mark_missed, DetectionTrack.create, hc]
  | succ n hn ih =>
    obtain ⟨t0, t1, heq, hp0, hp1, hc0, hc1⟩ := ih
    refine ⟨hysteresisStep p A t0, hysteresisStep p B t1, ?_, ?_, ?_, ?_, ?_⟩
    · rw [show n + 1 = n + 1 from rfl]
      have hrep : List.replicate (n + 1) [A, B]
          = List.replicate n [A, B] ++ [[A, B]] := by
        rw [← List.replicate_succ']
      rw [hrep]
      show (List.replicate n [A, B] ++ [[A, B]]).foldl
        (fun st f => (p.process f st).2) [] = _
      rw [List.foldl_append]
      show (p.process [A, B] (processN p (List.replicate n [A, B]) [])).2 = _
      rw [heq]
      exact twoDetStep p A B t0 t1 hc hpa hA hB hg0
    · have hq := hysteresisStep_qual p A t0 hpa hA
      simp [DetectionTrack.posQuad, Detection.posQuad, hq.1, hq.2.1, hq.2.2.1, hq.2.2.2.1]
    · have hq := hysteresisStep_qual p B t1 hpa hB
      simp [DetectionTrack.posQuad, Detection.posQuad, hq.1, hq.2.1, hq.2.2.1, hq.2.2.2.1]
    · rw [(hysteresisStep_qual p A t0 hpa hA).2.2.2.2.2, hc0]
    · rw [(hysteresisStep_qual p B t1 hpa hB).2.2.2.2.2, hc1]

/-- C3 (amended): from the second frame onward the two detections hold two
distinct tracks at the two positions, and swapping the per-frame input order
permutes which slot holds which position but leaves the multiset of track
positions unchanged. -/
theorem C3_two_tracks_order_independent (p : TemporalHysteresisStabilizer)
    (A B : Detection) (n : ℕ) (hc : B.cls = A.cls)
    (hpa : p.persist_conf ≤ p.appear_conf)
    (hA : p.appear_conf ≤ A.confidence) (hB : p.appear_conf ≤ B.confidence)
    (hg1 : 1 ≤ p.max_gap) (hn : 2 ≤ n) :
    (∃ t0 t1, processN p (List.replicate n [A, B]) [] = [(A.cls, [t0, t1])] ∧
      t0.posQuad = A.posQuad ∧ t1.posQuad = B.posQuad) ∧
    (∃ u0 u1, processN p (List.replicate n [B, A]) [] = [(A.cls, [u0, u1])] ∧
      u0.posQuad = B.posQuad ∧ u1.posQuad = A.posQuad) ∧
    ((allTracks (processN p (List.replicate n [A, B]) [])).map
        DetectionTrack.posQuad).Perm
      ((allTracks (processN p (List.replicate n [B, A]) [])).map
        DetectionTrack.posQuad) := by
  obtain ⟨t0, t1, heq1, hp0, hp1, -, -⟩ := twoDetRun p A B hc hpa hA hB hg1 n hn
  obtain ⟨u0, u1, heq2, hq0, hq1, -, -⟩ := twoDetRun p B A hc.symm hpa hB hA hg1 n hn
  rw [hc] at heq2
  refine ⟨⟨t0, t1, heq1, hp0, hp1⟩, ⟨u0, u1, heq2, hq0, hq1⟩, ?_⟩
  rw [heq1, heq2]
  simp only [allTracks, List.map, hp0, hp1, hq0, hq1, List.append_nil]
  exact List.Perm.swap B.posQuad A.posQuad []

/-- C3 counterexample: two same-class, spatially-disjoint detections fed in a
single frame produce ONE track, not two — the second detection class-matches
the track just created by the first and updates it in place (note
`consecutive_frames = 2` and the track carries the second detection's
position), refuting "they are never merged into one". -/
theorem C3_counterexample :
    ((⟨2, 2, 1/2, 3/10⟩ : TemporalHysteresisStabilizer).process
        [⟨"person", 3/5, 3/10, 1/2, 3/20, 1/5⟩, ⟨"person", 3/5, 7/10, 1/2, 3/20, 1/5⟩]
        []).2
      = [("person", [⟨"person", 3/5, 7/10, 1/2, 3/20, 1/5, 2, 0, true, [3/5, 3/5]⟩])] ∧
    (allTracks ((⟨2, 2, 1/2, 3/10⟩ : TemporalHysteresisStabilizer).process
        [⟨"person", 3/5, 3/10, 1/2, 3/20, 1/5⟩, ⟨"person", 3/5, 7/10, 1/2, 3/20, 1/5⟩]
        []).2).length = 1 := by
  have h : ((⟨2, 2, 1/2, 3/10⟩ : TemporalHysteresisStabilizer).process
      [⟨"person", 3/5, 3/10, 1/2, 3/20, 1/5⟩, ⟨"person", 3/5, 7/10, 1/2, 3/20, 1/5⟩]
      []).2
      = [("person", [⟨"person", 3/5, 7/10, 1/2, 3/20, 1/5, 2, 0, true, [3/5, 3/5]⟩])] := by
    norm_num [TemporalHysteresisStabilizer.process, TemporalHysteresisStabilizer.afterMark,
      processDetection, getRow, firstUnmatched, hysteresisStep, DetectionTrack.update,
      DetectionTrack.mark_missed, DetectionTrack.create, pushConfidence, markUnmatched,
      markRow, emitAll, emitRow, emitTrack, evictExpired, evictRow, modifyTrack, setRow,
      appendTrack]
  exact ⟨h, by rw [h]; rfl⟩

/-- C3 witness: `C3_two_tracks_order_independent` instantiated at two
disjoint `person` detections with `confidence = appear_conf = persist_conf`,
`max_gap = 1`, `n = 2`. -/
theorem C3_witness :
    ((allTracks (processN (⟨1, 1, 1/2, 1/2⟩ : TemporalHysteresisStabilizer)
        (List.replicate 2 [⟨"person", 1/2, 1/4, 1/2, 3/20, 1/5⟩,
          ⟨"person", 1/2, 3/4, 1/2, 3/20, 1/5⟩]) [])).map
        DetectionTrack.posQuad).Perm
      ((allTracks (processN (⟨1, 1, 1/2, 1/2⟩ : TemporalHysteresisStabilizer)
        (List.replicate 2 [⟨"person", 1/2, 3/4, 1/2, 3/20, 1/5⟩,
          ⟨"person", 1/2, 1/4, 1/2, 3/20, 1/5⟩]) [])).map
        DetectionTrack.posQuad) :=
  (C3_two_tracks_order_independent (⟨1, 1, 1/2, 1/2⟩ : TemporalHysteresisStabilizer)
    ⟨"person", 1/2, 1/4, 1/2, 3/20, 1/5⟩ ⟨"person", 1/2, 3/4, 1/2, 3/20, 1/5⟩ 2
    rfl (le_refl _) (le_refl _) (le_refl _) (le_refl _) (le_refl _)).2.2

/-- C4 witness: `C4_eviction_exactly_on_gap_overflow` instantiated with
`max_gap = 1` and a track that reaches `gap_frames = 1 = max_gap` in this
call: it survives eviction. -/
theorem C4_witness :
    trackMem ⟨"person", 0, 0, 0, 0, 0, 0, 1, false, []⟩
      (((⟨1, 1, 0, 0⟩ : TemporalHysteresisStabilizer).process []
        [("person", [⟨"person", 0, 0, 0, 0, 0, 0, 0, false, []⟩])]).2) := by
  have hmem : trackMem ⟨"person", 0, 0, 0, 0, 0, 0, 1, false, []⟩
      ((⟨1, 1, 0, 0⟩ : TemporalHysteresisStabilizer).afterMark []
        [("person", [⟨"person", 0, 0, 0, 0, 0, 0, 0, false, []⟩])]) := by
    refine ⟨("person", [⟨"person", 0, 0, 0, 0, 0, 0, 1, false, []⟩]), ?_, ?_⟩
    · simp [TemporalHysteresisStabilizer.afterMark, markUnmatched, markRow,
        DetectionTrack.mark_missed]
    · simp
  exact ((C4_eviction_exactly_on_gap_overflow (⟨1, 1, 0, 0⟩ : TemporalHysteresisStabilizer)
    [] [("person", [⟨"person", 0, 0, 0, 0, 0, 0, 0, false, []⟩])]).2.1
    ⟨"person", 0, 0, 0, 0, 0, 0, 1, false, []⟩ hmem).mp (by decide)

/-- C10 witness: `C10_emitted_confidence_ge_persist` instantiated at a
confirmed track matched by a detection with confidence equal to
`persist_conf`. -/
theorem C10_witness :
    (⟨1, 1, 1/2, 1/2⟩ : TemporalHysteresisStabilizer).persist_conf
      ≤ (⟨"person", 1/2, 0, 0, 0, 0⟩ : Detection).confidence := by
  have hmem : (⟨"person", 1/2, 0, 0, 0, 0⟩ : Detection)
      ∈ ((⟨1, 1, 1/2, 1/2⟩ : TemporalHysteresisStabilizer).process
        [⟨"person", 1/2, 0, 0, 0, 0⟩]
        [("person", [⟨"person", 1/2, 0, 0, 0, 0, 5, 0, true, []⟩])]).1 := by
    simp [TemporalHysteresisStabilizer.process, TemporalHysteresisStabilizer.afterMark,
      processDetection, getRow, firstUnmatched, hysteresisStep, DetectionTrack.update,
      DetectionTrack.mark_missed, pushConfidence, markUnmatched, markRow, emitAll,
      emitRow, emitTrack, modifyTrack, setRow]
  exact C10_emitted_confidence_ge_persist (⟨1, 1, 1/2, 1/2⟩ : TemporalHysteresisStabilizer)
    [⟨"person", 1/2, 0, 0, 0, 0⟩]
    [("person", [⟨"person", 1/2, 0, 0, 0, 0, 5, 0, true, []⟩])]
    (by simp [TrackTableWF]) (le_refl _) _ hmem

/-- C2 (code bug): Scenario B of the spec — one `person` detection with
confidence 0.6 per frame, `min_frames = 3`, `max_gap = 2`, `appear = 0.5`,
`persist = 0.3` — must emit detections of lengths `0, 0, 1` over frames 1–3,
with `confirmed` set at the frame where the count of consecutive qualifying
frames reaches `min_frames`.  The code emits `0, 0, 0` and first emits at
frame 4: the newly created track is never added to `matched_tracks`, so step 3
marks it missed in its own creation frame, resetting `consecutive_frames`. -/
theorem C2_code_bug_confirmation_off_by_one :
    ((⟨3, 2, 1/2, 3/10⟩ : TemporalHysteresisStabilizer).process
        [⟨"person", 3/5, 1/2, 1/2, 1/5, 1/5⟩] []).1 = [] ∧
    ((⟨3, 2, 1/2, 3/10⟩ : TemporalHysteresisStabilizer).process
        [⟨"person", 3/5, 1/2, 1/2, 1/5, 1/5⟩]
        ((⟨3, 2, 1/2, 3/10⟩ : TemporalHysteresisStabilizer).process
          [⟨"person", 3/5, 1/2, 1/2, 1/5, 1/5⟩] []).2).1 = [] ∧
    ((⟨3, 2, 1/2, 3/10⟩ : TemporalHysteresisStabilizer).process
        [⟨"person", 3/5, 1/2, 1/2, 1/5, 1/5⟩]
        ((⟨3, 2, 1/2, 3/10⟩ : TemporalHysteresisStabilizer).process
          [⟨"person", 3/5, 1/2, 1/2, 1/5, 1/5⟩]
          ((⟨3, 2, 1/2, 3/10⟩ : TemporalHysteresisStabilizer).process
            [⟨"person", 3/5, 1/2, 1/2, 1/5, 1/5⟩] []).2).2).1 = [] ∧
    ((⟨3, 2, 1/2, 3/10⟩ : TemporalHysteresisStabilizer).process
        [⟨"person", 3/5, 1/2, 1/2, 1/5, 1/5⟩]
        ((⟨3, 2, 1/2, 3/10⟩ : TemporalHysteresisStabilizer).process
          [⟨"person", 3/5, 1/2, 1/2, 1/5, 1/5⟩]
          ((⟨3, 2, 1/2, 3/10⟩ : TemporalHysteresisStabilizer).process
            [⟨"person", 3/5, 1/2, 1/2, 1/5, 1/5⟩]
            ((⟨3, 2, 1/2, 3/10⟩ : TemporalHysteresisStabilizer).process
              [⟨"person", 3/5, 1/2, 1/2, 1/5, 1/5⟩] []).2).2).2).1
      = [⟨"person", 3/5, 1/2, 1/2, 1/5, 1/5⟩] := by
  have h1 : (⟨3, 2, 1/2, 3/10⟩ : TemporalHysteresisStabilizer).process
      [⟨"person", 3/5, 1/2, 1/2, 1/5, 1/5⟩] []
      = ([], [("person", [⟨"person", 3/5, 1/2, 1/2, 1/5, 1/5, 0, 1, false, [3/5]⟩])]) := by
    norm_num [TemporalHysteresisStabilizer.process, TemporalHysteresisStabilizer.afterMark,
      processDetection, getRow, firstUnmatched, hysteresisStep, DetectionTrack.update,
      DetectionTrack.mark_missed, DetectionTrack.create, pushConfidence, markUnmatched,
      markRow, emitAll, emitRow, emitTrack, evictExpired, evictRow, modifyTrack, setRow,
      appendTrack]
  have h2 : (⟨3, 2, 1/2, 3/10⟩ : TemporalHysteresisStabilizer).process
      [⟨"person", 3/5, 1/2, 1/2, 1/5, 1/5⟩]
      [("person", [⟨"person", 3/5, 1/2, 1/2, 1/5, 1/5, 0, 1, false, [3/5]⟩])]
      = ([], [("person", [⟨"person", 3/5, 1/2, 1/2, 1/5, 1/5, 1, 0, false, [3/5, 3/5]⟩])]) := by
    norm_num [TemporalHysteresisStabilizer.process, TemporalHysteresisStabilizer.afterMark,
      processDetection, getRow, firstUnmatched, hysteresisStep, DetectionTrack.update,
      DetectionTrack.mark_missed, DetectionTrack.create, pushConfidence, markUnmatched,
      markRow, emitAll, emitRow, emitTrack, evictExpired, evictRow, modifyTrack, setRow,
      appendTrack]
  have h3 : (⟨3, 2, 1/2, 3/10⟩ : TemporalHysteresisStabilizer).process
      [⟨"person", 3/5, 1/2, 1/2, 1/5, 1/5⟩]
      [("person", [⟨"person", 3/5, 1/2, 1/2, 1/5, 1/5, 1, 0, false, [3/5, 3/5]⟩])]
      = ([], [("person",
          [⟨"person", 3/5, 1/2, 1/2, 1/5, 1/5, 2, 0, false, [3/5, 3/5, 3/5]⟩])]) := by
    norm_num [TemporalHysteresisStabilizer.process, TemporalHysteresisStabilizer.afterMark,
      processDetection, getRow, firstUnmatched, hysteresisStep, DetectionTrack.update,
      DetectionTrack.mark_missed, DetectionTrack.create, pushConfidence, markUnmatched,
      markRow, emitAll, emitRow, emitTrack, evictExpired, evictRow, modifyTrack, setRow,
      appendTrack]
  have h4 : (⟨3, 2, 1/2, 3/10⟩ : TemporalHysteresisStabilizer).process
      [⟨"person", 3/5, 1/2, 1/2, 1/5, 1/5⟩]
      [("person", [⟨"person", 3/5, 1/2, 1/2, 1/5, 1/5, 2, 0, false, [3/5, 3/5, 3/5]⟩])]
      = ([⟨"person", 3/5, 1/2, 1/2, 1/5, 1/5⟩],
         [("person",
          [⟨"person", 3/5, 1/2, 1/2, 1/5, 1/5, 3, 0, true, [3/5, 3/5, 3/5, 3/5]⟩])]) := by
    norm_num [TemporalHysteresisStabilizer.process, TemporalHysteresisStabilizer.afterMark,
      processDetection, getRow, firstUnmatched, hysteresisStep, DetectionTrack.update,
      DetectionTrack.mark_missed, DetectionTrack.create, pushConfidence, markUnmatched,
      markRow, emitAll, emitRow, emitTrack, evictExpired, evictRow, modifyTrack, setRow,
      appendTrack]
    simp
  refine ⟨by rw [h1], by rw [h1, h2], by rw [h1, h2, h3], by rw [h1, h2, h3, h4]⟩
